import Mathlib

/-!
Shallow embedding of the review-analysis pipeline of `src/App.py`
(class `AmazonReviewAnalyzer`), together with proofs of the spec claims.

Python strings are modelled as Lean `String` (a packed `List Char`), and the
Python string primitives used by the source (`in`, `split('.')`, `strip()`,
`lower()`, slicing, `len`) are modelled as executable functions over the
underlying character lists.  Python floats are modelled as `ℚ`; operations
that can raise in Python (division, `max` of an empty sequence, indexing)
return `Option` and the callers thread the failure exactly where the source
guards it.
-/

namespace ReviewAnalyzer

/-- A review record as built by `fetch_reviews_selenium` (src/App.py:90-94):
a dict with keys `text`, `rating` and `sentiment` (the latter a string
produced by `analyze_sentiment`). -/
structure Review where
  text : String
  rating : ℚ
  sentiment : String
deriving DecidableEq, Repr

/-! ### Python string primitives -/

/-- `startsWith needle hay` is true when `needle` is an initial segment of
`hay` (used to model a match of a literal pattern at a fixed position). -/
def startsWith : List Char → List Char → Bool
  | [], _ => true
  | _ :: _, [] => false
  | a :: as, b :: bs => a == b && startsWith as bs

/-- Python's substring test `needle in hay`, by scanning every position. -/
def containsSub (needle : List Char) : List Char → Bool
  | [] => needle.isEmpty
  | c :: cs => startsWith needle (c :: cs) || containsSub needle cs

/-- Python `needle in hay` on strings. -/
def pyIn (needle hay : String) : Bool := containsSub needle.data hay.data

/-- Python `text.split(sep)` for a one-character separator. -/
def pySplitChars (sep : Char) : List Char → List (List Char)
  | [] => [[]]
  | c :: cs =>
    if c = sep then [] :: pySplitChars sep cs
    else
      match pySplitChars sep cs with
      | [] => [[c]]
      | s :: rest => (c :: s) :: rest

/-- Python `text.split('.')` on strings. -/
def pySplitOn (sep : Char) (s : String) : List String :=
  (pySplitChars sep s.data).map String.mk

/-- Python `s.strip()` on character lists: drop whitespace from both ends. -/
def pyStripChars (s : List Char) : List Char :=
  ((s.dropWhile Char.isWhitespace).reverse.dropWhile Char.isWhitespace).reverse

/-- Python `s.strip()` on strings. -/
def pyStrip (s : String) : String := ⟨pyStripChars s.data⟩

/-- Python `s.lower()` (ASCII case folding, as used on the review text). -/
def pyLower (s : String) : String := ⟨s.data.map Char.toLower⟩

/-- Python slicing `s[:n]`. -/
def pyTake (n : ℕ) (s : String) : String := ⟨s.data.take n⟩

/-- Python `a / b`: raises `ZeroDivisionError` when `b == 0`. -/
def pyDiv (a b : ℚ) : Option ℚ := if b = 0 then none else some (a / b)

/-! ### Sentiment Classifier (src/App.py:52-62) -/

/-- `analyze_sentiment` (src/App.py:52-62).  The TextBlob polarity scorer is
the external pluggable classifier; the function is parameterized by the
polarity value it computes for the input text, and applies the fixed
thresholds of the source. -/
def analyze_sentiment (polarity : ℚ) : String :=
  if polarity > 1/10 then "Positive"
  else if polarity < -(1/10) then "Negative"
  else "Neutral"

/-! ### URL handling (src/App.py:34-50) -/

/-- One character of the ASIN character class `[A-Z0-9]`. -/
def isAsinChar (c : Char) : Bool :=
  ('A' ≤ c && c ≤ 'Z') || ('0' ≤ c && c ≤ '9')

/-- Try to match `marker` followed by exactly ten `[A-Z0-9]` characters at
the head of `s`; on success return the ten captured characters. -/
def matchAsinAt (marker : List Char) (s : List Char) : Option (List Char) :=
  if startsWith marker s then
    let rest := s.drop marker.length
    let cand := rest.take 10
    if cand.length = 10 && cand.all isAsinChar then some cand else none
  else none

/-- Leftmost match of `marker` followed by ten ASIN characters, as
`re.search` finds it: try every position from the left. -/
def searchAsin (marker : List Char) : List Char → Option (List Char)
  | [] => none
  | c :: cs =>
    match matchAsinAt marker (c :: cs) with
    | some a => some a
    | none => searchAsin marker cs

/-- The `netloc` of `urllib.parse.urlparse`: the authority part after
`"://"`, up to the next `/`, `?` or `#`. -/
def urlNetloc (url : String) : String :=
  match url.splitOn "://" with
  | _ :: after :: _ => ⟨after.data.takeWhile fun c => c ≠ '/' && c ≠ '?' && c ≠ '#'⟩
  | _ => ""

/-- `clean_url` (src/App.py:34-46): extract `(domain, asin)` from the
product URL, trying the `/dp/<ASIN>` pattern and then `/product/<ASIN>`;
raises `ValueError("Could not find valid ASIN in URL")` when neither
matches. -/
def clean_url (url : String) : Except String (String × String) :=
  let domain := urlNetloc url
  match searchAsin "/dp/".data url.data with
  | some a => Except.ok (domain, ⟨a⟩)
  | none =>
    match searchAsin "/product/".data url.data with
    | some a => Except.ok (domain, ⟨a⟩)
    | none => Except.error "Could not find valid ASIN in URL"

/-- `get_review_url` (src/App.py:48-50). -/
def get_review_url (domain asin : String) : String :=
  "https://" ++ domain ++ "/product-reviews/" ++ asin ++ "/"

/-! ### Aggregate statistics (src/App.py:125-136) -/

/-- `total_reviews = len(df)` (src/App.py:127). -/
def total_count (reviews : List Review) : ℕ := reviews.length

/-- `avg_rating = df['rating'].mean()` (src/App.py:128). -/
def mean_rating (reviews : List Review) : ℚ :=
  ((reviews.map fun r => r.rating).sum) / (reviews.length : ℚ)

/-- `positive_percent` (src/App.py:135): share of `Positive`-labelled
reviews in the whole corpus, times 100. -/
def positive_percent (reviews : List Review) : ℚ :=
  (((reviews.filter fun r => r.sentiment == "Positive").length : ℚ) /
    (reviews.length : ℚ)) * 100

/-- `negative_percent` (src/App.py:136). -/
def negative_percent (reviews : List Review) : ℚ :=
  (((reviews.filter fun r => r.sentiment == "Negative").length : ℚ) /
    (reviews.length : ℚ)) * 100

/-- `detailed_reviews` (src/App.py:130): reviews whose text exceeds 200
characters. -/
def detailed_reviews (reviews : List Review) : List Review :=
  reviews.filter fun r => 200 < r.text.length

/-- `positive_reviews` (src/App.py:131). -/
def positive_subset (reviews : List Review) : List Review :=
  (detailed_reviews reviews).filter fun r => r.sentiment == "Positive"

/-- `negative_reviews` (src/App.py:132). -/
def negative_subset (reviews : List Review) : List Review :=
  (detailed_reviews reviews).filter fun r => r.sentiment == "Negative"

/-- `neutral_reviews` (src/App.py:133). -/
def neutral_subset (reviews : List Review) : List Review :=
  (detailed_reviews reviews).filter fun r => r.sentiment == "Neutral"

/-! ### Overall sentiment descriptor (src/App.py:164-172) -/

/-- The `sentiment_desc` if/elif chain of src/App.py:164-172: initialise to
`"mixed reviews"` and reassign on the first matching threshold. -/
def sentiment_desc (positive_percent negative_percent : ℚ) : String :=
  if positive_percent ≥ 80 then "overwhelmingly positive reviews"
  else if positive_percent ≥ 70 then "largely positive reviews"
  else if positive_percent ≥ 60 then "generally positive reviews"
  else if negative_percent ≥ 60 then "generally negative reviews"
  else "mixed reviews"

/-! ### Number formatting for the opening sentence -/

/-- Round to the nearest integer, ties to even (the rounding of Python's
`format(x, '.1f')`), on the exact rational value. -/
def roundHalfEven (q : ℚ) : ℤ :=
  let f := q.floor
  if q - f < 1/2 then f
  else if q - f > 1/2 then f + 1
  else if f % 2 = 0 then f else f + 1

/-- Python `f"{q:.1f}"`: one decimal digit, rounding ties to even. -/
def formatRating (q : ℚ) : String :=
  let n := roundHalfEven (q * 10)
  let m := n.natAbs
  (if n < 0 then "-" else "") ++ toString (m / 10) ++ "." ++ toString (m % 10)

/-- The opening sentence of the summary (src/App.py:174). -/
def opening_sentence (product_title : String) (total : ℕ) (sd : String)
    (avg : ℚ) : String :=
  "Based on a detailed analysis of " ++ toString total ++
  " customer reviews, the " ++ product_title ++ " has received " ++ sd ++
  " with an average rating of " ++ formatRating avg ++ " out of 5 stars. "

/-! ### Closing recommendation (src/App.py:212-218) -/

/-- The closing recommendation if/elif chain of src/App.py:212-218.  The
strong branch names `list(positive_themes.keys())[:2]` joined by
`" and "`. -/
def closing_recommendation (avg_rating positive_percent : ℚ)
    (positive_themes : List (String × List String)) : String :=
  if avg_rating ≥ 4 ∧ positive_percent ≥ 70 then
    "Given the substantial positive feedback and high average rating, this product comes highly recommended by the majority of users, particularly for those valuing " ++
      String.intercalate " and " ((positive_themes.map Prod.fst).take 2) ++ "."
  else if avg_rating ≥ 7/2 ∧ positive_percent ≥ 60 then
    "While most users are satisfied with their purchase, potential buyers should weigh the praised aspects against the reported limitations to ensure it meets their specific needs."
  else
    "Given the mixed feedback, potential buyers may want to explore other options or consider specific use cases before deciding."

/-! ### Theme extractor (src/App.py:138-159) -/

/-- The `common_aspects` keyword table of src/App.py:140-149, in source
order. -/
def common_aspects : List (String × List String) :=
  [("quality", ["quality", "build", "material", "durability", "construction"]),
   ("value", ["price", "value", "worth", "cost", "expensive", "cheap"]),
   ("performance", ["performance", "speed", "fast", "slow", "efficient"]),
   ("features", ["feature", "functionality", "options", "capabilities"]),
   ("design", ["design", "look", "aesthetic", "style", "appearance"]),
   ("usability", ["easy", "simple", "intuitive", "user-friendly", "difficult"]),
   ("reliability", ["reliable", "consistent", "stable", "issues", "problems"]),
   ("support", ["support", "customer service", "warranty", "help"])]

/-- `any(keyword in text for keyword in keywords)` (src/App.py:154). -/
def containsAnyKeyword (keywords : List String) (t : String) : Bool :=
  keywords.any fun k => pyIn k t

/-- `relevant_sentences` (src/App.py:156): split on `'.'`, keep the segments
that contain a keyword and are non-empty after stripping, and return the
stripped segments in split order. -/
def relevant_sentences (keywords : List String) (text : String) : List String :=
  ((pySplitOn '.' text).filter fun s =>
    containsAnyKeyword keywords s && !(pyStrip s).data.isEmpty).map pyStrip

/-- `themes[aspect].append(ex)` on an insertion-ordered association list
(the model of the `defaultdict(list)` of src/App.py:139): extend the entry
of `aspect` when present, otherwise insert a new entry at the end. -/
def addTheme : List (String × List String) → String → String →
    List (String × List String)
  | [], aspect, ex => [(aspect, [ex])]
  | p :: rest, aspect, ex =>
    if p.1 == aspect then (p.1, p.2 ++ [ex]) :: rest
    else p :: addTheme rest aspect ex

/-- The value of key `aspect` in the theme map (`[]` when absent). -/
def themeExamples (themes : List (String × List String)) (aspect : String) :
    List String :=
  match themes.find? fun p => p.1 == aspect with
  | some p => p.2
  | none => []

/-- The body of the aspect loop of src/App.py:153-158 for one review and
one `(aspect, keywords)` pair. -/
def themeStep (r : Review) (themes : List (String × List String))
    (ak : String × List String) : List (String × List String) :=
  if containsAnyKeyword ak.2 (pyLower r.text) then
    match relevant_sentences ak.2 (pyLower r.text) with
    | [] => themes
    | e :: _ => addTheme themes ak.1 e
  else themes

/-- `extract_themes` (src/App.py:138-159): fold the aspect loop over the
reviews, accumulating the insertion-ordered theme map. -/
def extract_themes (review_list : List Review) : List (String × List String) :=
  review_list.foldl (fun th r => common_aspects.foldl (themeStep r) th) []

/-! ### Narrative composer (src/App.py:111-220) -/

/-- `max(comments, key=len)` (src/App.py:181): first string of maximal
length, `none` when the sequence is empty (Python would raise). -/
def maxByLen? : List String → Option String
  | [] => none
  | x :: xs =>
    some (xs.foldl (fun best s => if s.length > best.length then s else best) x)

/-- The `positive_points` / `negative_points` loop of src/App.py:179-182:
one `"the {aspect} ({example})"` item per aspect whose comment list is
non-empty, in theme-map order. -/
def themePoints (themes : List (String × List String)) : List String :=
  themes.filterMap fun p =>
    (maxByLen? p.2).map fun ex => "the " ++ p.1 ++ " (" ++ ex ++ ")"

/-- The join/indexing block of src/App.py:184-190: comma-join all but the
last item, then either `", and "` plus the last item (more than one item)
or the sole item, then `". "`.  Indexing an empty list would raise, hence
`Option`. -/
def formatPoints (points : List String) : Option String :=
  let base := String.intercalate ", " points.dropLast
  if points.length > 1 then
    points.getLast?.map fun lastP => base ++ ", and " ++ lastP ++ ". "
  else
    points.head?.map fun firstP => base ++ firstP ++ ". "

/-- One themes clause (src/App.py:176-190 for the positive themes,
src/App.py:196-210 for the negative ones): nothing when the theme map is
empty; otherwise the lead-in, followed by the formatted points when any
exist. -/
def themes_clause (lead : String) (themes : List (String × List String)) :
    Option String :=
  if themes.isEmpty then some ""
  else if (themePoints themes).isEmpty then some lead
  else (formatPoints (themePoints themes)).map fun body => lead ++ body

/-- `max(neutral_reviews, key=lambda x: len(x['text']))` (src/App.py:193):
first review of maximal text length among `r :: rest`. -/
def maxReviewByTextLen (r : Review) (rest : List Review) : Review :=
  rest.foldl (fun best x => if x.text.length > best.text.length then x else best) r

/-- The neutral-perspective clause (src/App.py:192-194): empty when there is
no neutral detailed review, otherwise a quote of the first 150 characters
of the longest-text one followed by the ellipsis marker. -/
def neutral_clause : List Review → String
  | [] => ""
  | r :: rest =>
    "A balanced perspective from users notes that " ++
      pyTake 150 (maxReviewByTextLen r rest).text ++ "... "

/-- `generate_summary` (src/App.py:111-220).  The Selenium product-title
lookup (src/App.py:116-123) is the external title resolver; the function is
parameterized by the resolved title (`"Product"` on failure).  Operations
that can raise in Python are threaded through `Option`. -/
def generate_summary (product_title : String) (reviews : List Review) :
    Option String :=
  if reviews.isEmpty then some "No reviews found for analysis."
  else
    match pyDiv ((reviews.map fun r => r.rating).sum) (reviews.length : ℚ),
        pyDiv (((reviews.filter fun r => r.sentiment == "Positive").length : ℚ))
          (reviews.length : ℚ),
        pyDiv (((reviews.filter fun r => r.sentiment == "Negative").length : ℚ))
          (reviews.length : ℚ) with
    | some avg_rating, some ppRaw, some npRaw =>
      match themes_clause "The standout features praised by customers include "
              (extract_themes (positive_subset reviews)),
          themes_clause "However, some users have expressed concerns about "
              (extract_themes (negative_subset reviews)) with
      | some posClause, some negClause =>
        some (opening_sentence product_title reviews.length
                (sentiment_desc (ppRaw * 100) (npRaw * 100)) avg_rating ++
              posClause ++
              neutral_clause (neutral_subset reviews) ++
              negClause ++
              closing_recommendation avg_rating (ppRaw * 100)
                (extract_themes (positive_subset reviews)))
      | _, _ => none
    | _, _, _ => none

/-! ### Orchestration (src/App.py:64-109, 222-226) -/

/-- The page loop of `fetch_reviews_selenium` (src/App.py:71-104): pages are
fetched in order starting from 1; the external page fetcher returns the
parsed reviews of a page or `none` for a per-page failure, which breaks the
loop, keeping the reviews collected so far. -/
def fetch_pages (fetchPage : ℕ → Option (List Review)) :
    ℕ → ℕ → List Review → List Review
  | 0, _, acc => acc
  | fuel + 1, page, acc =>
    match fetchPage page with
    | none => acc
    | some rs => fetch_pages fetchPage fuel (page + 1) (acc ++ rs)

/-- `fetch_reviews_selenium` (src/App.py:64-109).  The whole body runs
inside `try/except Exception` (src/App.py:67-107), so the `ValueError`
raised by `clean_url` is swallowed and the accumulated review list — still
empty at that point — is returned. -/
def fetch_reviews_selenium (fetchPage : String → ℕ → Option (List Review))
    (url : String) (num_pages : ℕ) : List Review :=
  match clean_url url with
  | Except.error _ => []
  | Except.ok (domain, asin) =>
    fetch_pages (fetchPage (get_review_url domain asin)) num_pages 1 []

/-- `scrape_amazon_reviews` (src/App.py:222-226): fetch, then summarize.
`fetchPage` is the external page fetcher and `product_title` the externally
resolved title. -/
def scrape_amazon_reviews (fetchPage : String → ℕ → Option (List Review))
    (product_title : String) (url : String) : Option String :=
  generate_summary product_title (fetch_reviews_selenium fetchPage url 500)

/-! ### Shared lemmas: strings -/

/-- Concatenation of strings concatenates the character lists. -/
theorem str_data_append (s t : String) : (s ++ t).data = s.data ++ t.data := by
  cases s; cases t; rfl

/-- String concatenation is associative. -/
theorem str_append_assoc (a b c : String) : a ++ b ++ c = a ++ (b ++ c) := by
  cases a; cases b; cases c
  show String.mk _ = String.mk _
  rw [List.append_assoc]

/-- A string ending in `". "` is not empty. -/
theorem append_dot_ne_empty (x : String) : x ++ ". " ≠ "" := by
  intro h
  have hd : (x ++ ". ").data = [] := by rw [h]
  rw [str_data_append] at hd
  simp at hd

/-! ### Shared lemmas: substring search -/

/-- Characters of a matched pattern occur in the scanned list. -/
theorem startsWith_mem {n h : List Char} (hs : startsWith n h = true) :
    ∀ c ∈ n, c ∈ h := by
  induction n generalizing h with
  | nil => intro c hc; exact absurd hc (List.not_mem_nil c)
  | cons a as ih =>
    cases h with
    | nil => simp [startsWith] at hs
    | cons b bs =>
      simp only [startsWith, Bool.and_eq_true, beq_iff_eq] at hs
      intro c hc
      rcases List.mem_cons.mp hc with rfl | hc
      · rw [hs.1]; exact List.mem_cons_self _ _
      · exact List.mem_cons_of_mem _ (ih hs.2 c hc)

/-- Characters of a found substring occur in the searched list. -/
theorem containsSub_mem {n h : List Char} (hc : containsSub n h = true) :
    ∀ c ∈ n, c ∈ h := by
  induction h with
  | nil =>
    simp only [containsSub, List.isEmpty_iff] at hc
    subst hc
    intro c hcn
    exact absurd hcn (List.not_mem_nil c)
  | cons b bs ih =>
    simp only [containsSub, Bool.or_eq_true] at hc
    rcases hc with hc | hc
    · exact startsWith_mem hc
    · intro c hcn
      exact List.mem_cons_of_mem _ (ih hc c hcn)

/-- `pySplitChars` always returns at least one segment. -/
theorem pySplitChars_ne_nil (sep : Char) (l : List Char) :
    pySplitChars sep l ≠ [] := by
  induction l with
  | nil => simp [pySplitChars]
  | cons c cs ih =>
    rw [pySplitChars]
    split
    · simp
    · split <;> simp

/-- A prefix of any list is in the returned list. -/
theorem headD_mem {α : Type} {l : List α} (d : α) (h : l ≠ []) :
    l.headD d ∈ l := by
  cases l with
  | nil => exact absurd rfl h
  | cons x xs => exact List.mem_cons_self x xs

/-- A separator-free pattern matching at the head of `l` also matches at the
head of the first segment of `pySplitChars sep l`. -/
theorem startsWith_headD (sep : Char) :
    ∀ (l n : List Char), sep ∉ n → startsWith n l = true →
      startsWith n ((pySplitChars sep l).headD []) = true := by
  intro l
  induction l with
  | nil =>
    intro n hsep hn
    cases n with
    | nil => simp [pySplitChars, startsWith]
    | cons a as => simp [startsWith] at hn
  | cons c cs ih =>
    intro n hsep hn
    cases n with
    | nil =>
      cases hgoal : (pySplitChars sep (c :: cs)).headD [] <;> simp [startsWith]
    | cons a as =>
      simp only [startsWith, Bool.and_eq_true, beq_iff_eq] at hn
      obtain ⟨rfl, hn2⟩ := hn
      have hcsep : a ≠ sep := fun hh => hsep (hh ▸ List.mem_cons_self _ _)
      rw [pySplitChars, if_neg (fun hh => hcsep hh)]
      obtain ⟨s0, rest, heq⟩ :=
        List.exists_cons_of_ne_nil (pySplitChars_ne_nil sep cs)
      rw [heq]
      have ih2 := ih as (fun hh => hsep (List.mem_cons_of_mem _ hh)) hn2
      rw [heq] at ih2
      simp only [List.headD] at ih2 ⊢
      simp [startsWith, ih2]

/-- A match at the head is in particular a substring occurrence. -/
theorem containsSub_of_startsWith {n l : List Char}
    (h : startsWith n l = true) : containsSub n l = true := by
  cases l with
  | nil =>
    cases n with
    | nil => simp [containsSub]
    | cons a as => simp [startsWith] at h
  | cons c cs => simp [containsSub, h]

/-- A separator-free substring of `l` is a substring of one of the segments
of `pySplitChars sep l` — the key fact behind `relevant_sentences` never
being empty when the whole text contains a keyword. -/
theorem containsSub_split (sep : Char) :
    ∀ (l n : List Char), sep ∉ n → containsSub n l = true →
      ∃ s ∈ pySplitChars sep l, containsSub n s = true := by
  intro l
  induction l with
  | nil =>
    intro n _ hc
    simp only [containsSub, List.isEmpty_iff] at hc
    subst hc
    exact ⟨[], by simp [pySplitChars], by simp [containsSub]⟩
  | cons c cs ih =>
    intro n hsep hc
    simp only [containsSub, Bool.or_eq_true] at hc
    rcases hc with hc | hc
    · refine ⟨(pySplitChars sep (c :: cs)).headD [],
        headD_mem _ (pySplitChars_ne_nil _ _), ?_⟩
      exact containsSub_of_startsWith (startsWith_headD sep (c :: cs) n hsep hc)
    · obtain ⟨s, hs, hsub⟩ := ih n hsep hc
      by_cases hcsep : c = sep
      · subst hcsep
        rw [pySplitChars, if_pos rfl]
        exact ⟨s, List.mem_cons_of_mem _ hs, hsub⟩
      · rw [pySplitChars, if_neg hcsep]
        obtain ⟨s0, rest, heq⟩ :=
          List.exists_cons_of_ne_nil (pySplitChars_ne_nil sep cs)
        rw [heq] at hs ⊢
        rcases List.mem_cons.mp hs with rfl | hs2
        · exact ⟨c :: s, List.mem_cons_self _ _, by simp [containsSub, hsub]⟩
        · exact ⟨s, List.mem_cons_of_mem _ hs2, hsub⟩

/-! ### Shared lemmas: stripping -/

/-- An element failing the predicate survives `dropWhile`. -/
theorem mem_dropWhile_of_not {p : Char → Bool} {c : Char} {l : List Char}
    (hc : c ∈ l) (hp : p c = false) : c ∈ l.dropWhile p := by
  have hsplit := List.takeWhile_append_dropWhile p l
  rw [← hsplit] at hc
  rcases List.mem_append.mp hc with h | h
  · have := List.mem_takeWhile_imp h
    rw [hp] at this
    exact absurd this (by simp)
  · exact h

/-- A non-whitespace character of `l` survives stripping. -/
theorem mem_pyStripChars {c : Char} {l : List Char} (hc : c ∈ l)
    (hw : c.isWhitespace = false) : c ∈ pyStripChars l := by
  unfold pyStripChars
  apply List.mem_reverse.mpr
  apply mem_dropWhile_of_not _ hw
  apply List.mem_reverse.mpr
  exact mem_dropWhile_of_not hc hw

/-- A list with a non-whitespace character does not strip to nothing. -/
theorem pyStripChars_ne_nil {l : List Char} {c : Char} (hc : c ∈ l)
    (hw : c.isWhitespace = false) : pyStripChars l ≠ [] :=
  List.ne_nil_of_mem (mem_pyStripChars hc hw)

/-! ### Shared lemmas: relevant sentences -/

/-- Every keyword of `common_aspects` is period-free and contains a
non-whitespace character. -/
theorem common_aspects_keywords_ok :
    ∀ p ∈ common_aspects, ∀ k ∈ p.2,
      ('.' ∉ k.data) ∧ k.data.any (fun c => !c.isWhitespace) = true := by
  decide

/-- When the text contains one of the keywords, the filtered-and-stripped
segment list of src/App.py:156 is non-empty. -/
theorem relevant_sentences_ne_nil {keywords : List String} {t : String}
    (hok : ∀ k ∈ keywords,
      ('.' ∉ k.data) ∧ k.data.any (fun c => !c.isWhitespace) = true)
    (hkw : containsAnyKeyword keywords t = true) :
    ∃ f rest, relevant_sentences keywords t = f :: rest := by
  obtain ⟨k, hkmem, hk⟩ := List.any_eq_true.mp hkw
  obtain ⟨hdot, hnw⟩ := hok k hkmem
  obtain ⟨seg, hsegmem, hsegsub⟩ := containsSub_split '.' t.data k.data hdot hk
  obtain ⟨c, hcmem, hcw⟩ := List.any_eq_true.mp hnw
  have hcseg : c ∈ seg := containsSub_mem hsegsub c hcmem
  have hstrip : pyStripChars seg ≠ [] :=
    pyStripChars_ne_nil hcseg (by simpa using hcw)
  have hmem2 : (⟨seg⟩ : String) ∈ pySplitOn '.' t := by
    unfold pySplitOn
    exact List.mem_map.mpr ⟨seg, hsegmem, rfl⟩
  have hpred : (containsAnyKeyword keywords ⟨seg⟩ &&
      !(pyStrip ⟨seg⟩).data.isEmpty) = true := by
    rw [Bool.and_eq_true]
    refine ⟨List.any_eq_true.mpr ⟨k, hkmem, hsegsub⟩, ?_⟩
    simpa [pyStrip, List.isEmpty_iff] using hstrip
  have hfil : (pySplitOn '.' t).filter
      (fun s => containsAnyKeyword keywords s && !(pyStrip s).data.isEmpty) ≠ [] :=
    List.ne_nil_of_mem (List.mem_filter.mpr ⟨hmem2, hpred⟩)
  have hmapne : relevant_sentences keywords t ≠ [] := by
    unfold relevant_sentences
    simpa using hfil
  exact List.exists_cons_of_ne_nil hmapne

/-- Members of `relevant_sentences` are non-empty strings (the stripped
segments are filtered against emptiness before being kept). -/
theorem relevant_sentences_mem_ne_nil {keywords : List String} {t : String} :
    ∀ e ∈ relevant_sentences keywords t, e.data ≠ [] := by
  intro e he
  unfold relevant_sentences at he
  obtain ⟨s, hs, rfl⟩ := List.mem_map.mp he
  have h2 := (List.mem_filter.mp hs).2
  rw [Bool.and_eq_true] at h2
  simpa [pyStrip, List.isEmpty_iff] using h2.2

/-! ### Shared lemmas: the theme map -/

/-- `addTheme` appends to the entry of the touched key. -/
theorem themeExamples_addTheme_same (th : List (String × List String))
    (a e : String) :
    themeExamples (addTheme th a e) a = themeExamples th a ++ [e] := by
  induction th with
  | nil => simp [addTheme, themeExamples, List.find?]
  | cons p rest ih =>
    by_cases hp : p.1 = a
    · rw [addTheme, if_pos (by simpa using hp)]
      rw [themeExamples, themeExamples]
      rw [List.find?_cons_of_pos _ (by simpa using hp),
        List.find?_cons_of_pos _ (by simpa using hp)]
    · rw [addTheme, if_neg (by simpa using hp)]
      rw [themeExamples, themeExamples]
      rw [List.find?_cons_of_neg _ (by simpa using hp),
        List.find?_cons_of_neg _ (by simpa using hp)]
      exact ih

/-- `addTheme` leaves the entries of other keys unchanged. -/
theorem themeExamples_addTheme_ne (th : List (String × List String))
    (a' a e : String) (hne : a' ≠ a) :
    themeExamples (addTheme th a' e) a = themeExamples th a := by
  induction th with
  | nil =>
    have hb : (a' == a) = false := beq_eq_false_iff_ne.mpr hne
    simp [addTheme, themeExamples, List.find?, hb]
  | cons p rest ih =>
    by_cases hp : p.1 = a'
    · rw [addTheme, if_pos (by simpa using hp)]
      by_cases hpa : p.1 = a
      · exact absurd (hp ▸ hpa) hne
      · rw [themeExamples, themeExamples]
        rw [List.find?_cons_of_neg _ (by simpa using hpa),
          List.find?_cons_of_neg _ (by simpa using hpa)]
    · rw [addTheme, if_neg (by simpa using hp)]
      by_cases hpa : p.1 = a
      · rw [themeExamples, themeExamples]
        rw [List.find?_cons_of_pos _ (by simpa using hpa),
          List.find?_cons_of_pos _ (by simpa using hpa)]
      · rw [themeExamples, themeExamples]
        rw [List.find?_cons_of_neg _ (by simpa using hpa),
          List.find?_cons_of_neg _ (by simpa using hpa)]
        exact ih

/-- One aspect step for a different key leaves an entry unchanged. -/
theorem themeExamples_themeStep_ne (r : Review)
    (th : List (String × List String)) (q : String × List String)
    (a : String) (hne : q.1 ≠ a) :
    themeExamples (themeStep r th q) a = themeExamples th a := by
  unfold themeStep
  split
  · split
    · rfl
    · exact themeExamples_addTheme_ne _ _ _ _ hne
  · rfl

/-- Folding aspect steps whose keys all differ from `a` leaves the entry of
`a` unchanged. -/
theorem themeExamples_foldl_ne (r : Review) (a : String) :
    ∀ (asps : List (String × List String)) (th : List (String × List String)),
      (∀ q ∈ asps, q.1 ≠ a) →
      themeExamples (asps.foldl (themeStep r) th) a = themeExamples th a := by
  intro asps
  induction asps with
  | nil => intro th _; rfl
  | cons q asps ih =>
    intro th hq
    rw [List.foldl_cons]
    rw [ih _ (fun p hp => hq p (List.mem_cons_of_mem _ hp))]
    exact themeExamples_themeStep_ne r th q a (hq q (List.mem_cons_self _ _))

/-- Folding the aspect list around the one entry for `a` appends exactly the
first relevant sentence to the entry of `a`. -/
theorem themeExamples_foldl_found (r : Review) (a : String)
    (keywords : List String) (pre post : List (String × List String))
    (th : List (String × List String))
    (hpre : ∀ q ∈ pre, q.1 ≠ a) (hpost : ∀ q ∈ post, q.1 ≠ a)
    (hkw : containsAnyKeyword keywords (pyLower r.text) = true)
    {f : String} {rest : List String}
    (hrel : relevant_sentences keywords (pyLower r.text) = f :: rest) :
    themeExamples ((pre ++ (a, keywords) :: post).foldl (themeStep r) th) a =
      themeExamples th a ++ [f] := by
  rw [List.foldl_append, List.foldl_cons]
  rw [themeExamples_foldl_ne r a post _ hpost]
  have hstep : themeStep r (pre.foldl (themeStep r) th) (a, keywords) =
      addTheme (pre.foldl (themeStep r) th) a f := by
    unfold themeStep
    simp only [hkw, if_true]
    rw [hrel]
  rw [hstep, themeExamples_addTheme_same,
    themeExamples_foldl_ne r a pre th hpre]

/-! ### Shared lemmas: the composer -/

/-- Python's `max(·, key=...)` on `r :: rest` returns a member of maximal
text length. -/
theorem maxReviewByTextLen_spec :
    ∀ (rest : List Review) (r : Review),
      (maxReviewByTextLen r rest ∈ r :: rest) ∧
      (∀ x ∈ r :: rest, x.text.length ≤ (maxReviewByTextLen r rest).text.length) := by
  intro rest
  induction rest with
  | nil =>
    intro r
    refine ⟨List.mem_cons_self _ _, ?_⟩
    intro x hx
    rcases List.mem_cons.mp hx with rfl | hmem
    · exact le_refl _
    · exact absurd hmem (List.not_mem_nil x)
  | cons y ys ih =>
    intro r
    have hunfold : maxReviewByTextLen r (y :: ys) =
        maxReviewByTextLen (if y.text.length > r.text.length then y else r) ys := rfl
    obtain ⟨ihmem, ihge⟩ := ih (if y.text.length > r.text.length then y else r)
    constructor
    · rw [hunfold]
      by_cases hyr : y.text.length > r.text.length
      · rw [if_pos hyr] at ihmem ⊢
        rcases List.mem_cons.mp ihmem with hm | hm
        · rw [hm]
          exact List.mem_cons_of_mem _ (List.mem_cons_self _ _)
        · exact List.mem_cons_of_mem _ (List.mem_cons_of_mem _ hm)
      · rw [if_neg hyr] at ihmem ⊢
        rcases List.mem_cons.mp ihmem with hm | hm
        · rw [hm]
          exact List.mem_cons_self _ _
        · exact List.mem_cons_of_mem _ (List.mem_cons_of_mem _ hm)
    · intro x hx
      rw [hunfold]
      have hstep : ∀ z : Review, z = r ∨ z = y →
          z.text.length ≤ (if y.text.length > r.text.length then y else r).text.length := by
        intro z hz
        by_cases hyr : y.text.length > r.text.length
        · rw [if_pos hyr]
          rcases hz with rfl | rfl
          · exact le_of_lt hyr
          · exact le_refl _
        · rw [if_neg hyr]
          rcases hz with rfl | rfl
          · exact le_refl _
          · exact le_of_not_lt hyr
      rcases List.mem_cons.mp hx with rfl | hx2
      · exact le_trans (hstep x (Or.inl rfl)) (ihge _ (List.mem_cons_self _ _))
      rcases List.mem_cons.mp hx2 with rfl | hx3
      · exact le_trans (hstep x (Or.inr rfl)) (ihge _ (List.mem_cons_self _ _))
      · exact ihge x (List.mem_cons_of_mem _ hx3)

/-- On a non-empty point list the join/indexing block succeeds and produces
a non-empty string (it always ends in `". "`). -/
theorem formatPoints_some {points : List String} (h : points ≠ []) :
    ∃ body, formatPoints points = some body ∧ body ≠ "" := by
  unfold formatPoints
  by_cases hlen : points.length > 1
  · rw [if_pos hlen]
    obtain ⟨lastP, hlast⟩ :=
      Option.isSome_iff_exists.mp (List.getLast?_isSome.mpr h)
    rw [hlast]
    exact ⟨_, rfl, append_dot_ne_empty _⟩
  · rw [if_neg hlen]
    cases points with
    | nil => exact absurd rfl h
    | cons x xs =>
      exact ⟨_, rfl, append_dot_ne_empty _⟩

/-- A themes clause always composes (the source guards every indexing). -/
theorem themes_clause_some (lead : String)
    (themes : List (String × List String)) :
    ∃ s, themes_clause lead themes = some s := by
  unfold themes_clause
  by_cases h1 : themes.isEmpty
  · rw [if_pos h1]
    exact ⟨_, rfl⟩
  · rw [if_neg h1]
    by_cases h2 : (themePoints themes).isEmpty
    · rw [if_pos h2]
      exact ⟨_, rfl⟩
    · rw [if_neg h2]
      obtain ⟨body, hbody, -⟩ :=
        formatPoints_some (by simpa [List.isEmpty_iff] using h2)
      rw [hbody]
      exact ⟨_, rfl⟩

/-- The composed summary of a non-empty corpus, with every `Option` step
discharged: opening sentence, positive clause, neutral clause, negative
clause and closing recommendation, in source order. -/
theorem generate_summary_eq_parts (title : String) (reviews : List Review)
    (h : reviews ≠ []) :
    ∃ pc nc,
      themes_clause "The standout features praised by customers include "
          (extract_themes (positive_subset reviews)) = some pc ∧
      themes_clause "However, some users have expressed concerns about "
          (extract_themes (negative_subset reviews)) = some nc ∧
      generate_summary title reviews =
        some (opening_sentence title reviews.length
                (sentiment_desc (positive_percent reviews) (negative_percent reviews))
                (mean_rating reviews) ++
              pc ++ neutral_clause (neutral_subset reviews) ++ nc ++
              closing_recommendation (mean_rating reviews) (positive_percent reviews)
                (extract_themes (positive_subset reviews))) := by
  obtain ⟨pc, hpc⟩ := themes_clause_some
    "The standout features praised by customers include "
    (extract_themes (positive_subset reviews))
  obtain ⟨nc, hnc⟩ := themes_clause_some
    "However, some users have expressed concerns about "
    (extract_themes (negative_subset reviews))
  refine ⟨pc, nc, hpc, hnc, ?_⟩
  have hlen : (reviews.length : ℚ) ≠ 0 := by
    intro hc
    exact h (List.length_eq_zero.mp (by exact_mod_cast hc))
  unfold generate_summary
  rw [if_neg (by simpa [List.isEmpty_iff] using h)]
  have hd1 : pyDiv ((reviews.map fun r => r.rating).sum) (reviews.length : ℚ) =
      some (mean_rating reviews) := by
    simp [pyDiv, hlen, mean_rating]
  have hd2 : pyDiv (((reviews.filter fun r => r.sentiment == "Positive").length : ℚ))
      (reviews.length : ℚ) =
      some (((reviews.filter fun r => r.sentiment == "Positive").length : ℚ) /
        (reviews.length : ℚ)) := by
    simp [pyDiv, hlen]
  have hd3 : pyDiv (((reviews.filter fun r => r.sentiment == "Negative").length : ℚ))
      (reviews.length : ℚ) =
      some (((reviews.filter fun r => r.sentiment == "Negative").length : ℚ) /
        (reviews.length : ℚ)) := by
    simp [pyDiv, hlen]
  rw [hd1, hd2, hd3, hpc, hnc]
  rfl

/-! ### Shared lemmas: theme-map invariants -/

/-- `addTheme` preserves the invariant that every entry holds a non-empty
list of non-empty strings. -/
theorem addTheme_inv (th : List (String × List String)) (a e : String)
    (hth : ∀ p ∈ th, p.2 ≠ [] ∧ ∀ x ∈ p.2, x.data ≠ [])
    (he : e.data ≠ []) :
    ∀ p ∈ addTheme th a e, p.2 ≠ [] ∧ ∀ x ∈ p.2, x.data ≠ [] := by
  induction th with
  | nil =>
    intro p hp
    simp only [addTheme, List.mem_singleton] at hp
    subst hp
    refine ⟨by simp, ?_⟩
    intro x hx
    simp only [List.mem_singleton] at hx
    subst hx
    exact he
  | cons q rest ih =>
    intro p hp
    rw [addTheme] at hp
    split at hp
    · rcases List.mem_cons.mp hp with rfl | hp2
      · refine ⟨by simp, ?_⟩
        intro x hx
        rcases List.mem_append.mp hx with hx1 | hx2
        · exact (hth q (List.mem_cons_self _ _)).2 x hx1
        · simp only [List.mem_singleton] at hx2
          subst hx2
          exact he
      · exact hth p (List.mem_cons_of_mem _ hp2)
    · rcases List.mem_cons.mp hp with rfl | hp2
      · exact hth _ (List.mem_cons_self _ _)
      · exact ih (fun p2 hp3 => hth p2 (List.mem_cons_of_mem _ hp3)) p hp2

/-- One aspect step preserves the theme-map invariant. -/
theorem themeStep_inv (r : Review) (th : List (String × List String))
    (ak : String × List String)
    (hth : ∀ p ∈ th, p.2 ≠ [] ∧ ∀ x ∈ p.2, x.data ≠ []) :
    ∀ p ∈ themeStep r th ak, p.2 ≠ [] ∧ ∀ x ∈ p.2, x.data ≠ [] := by
  unfold themeStep
  split
  · split
    · exact hth
    · next e es heq =>
      apply addTheme_inv _ _ _ hth
      exact relevant_sentences_mem_ne_nil e (by rw [heq]; exact List.mem_cons_self e es)
  · exact hth

/-- Folding the aspect list preserves the theme-map invariant. -/
theorem aspects_fold_inv (r : Review) :
    ∀ (asps : List (String × List String)) (th : List (String × List String)),
      (∀ p ∈ th, p.2 ≠ [] ∧ ∀ x ∈ p.2, x.data ≠ []) →
      ∀ p ∈ asps.foldl (themeStep r) th, p.2 ≠ [] ∧ ∀ x ∈ p.2, x.data ≠ [] := by
  intro asps
  induction asps with
  | nil => intro th hth; exact hth
  | cons q asps ih =>
    intro th hth
    rw [List.foldl_cons]
    exact ih _ (themeStep_inv r th q hth)

/-- Folding the review list preserves the theme-map invariant. -/
theorem reviews_fold_inv :
    ∀ (rl : List Review) (th : List (String × List String)),
      (∀ p ∈ th, p.2 ≠ [] ∧ ∀ x ∈ p.2, x.data ≠ []) →
      ∀ p ∈ rl.foldl (fun th r => common_aspects.foldl (themeStep r) th) th,
        p.2 ≠ [] ∧ ∀ x ∈ p.2, x.data ≠ [] := by
  intro rl
  induction rl with
  | nil => intro th hth; exact hth
  | cons r rl ih =>
    intro th hth
    rw [List.foldl_cons]
    exact ih _ (aspects_fold_inv r common_aspects th hth)

/-- Every entry of an extracted theme map holds a non-empty list of
non-empty strings. -/
theorem extract_themes_inv (rl : List Review) :
    ∀ p ∈ extract_themes rl, p.2 ≠ [] ∧ ∀ x ∈ p.2, x.data ≠ [] := by
  unfold extract_themes
  exact reviews_fold_inv rl [] (fun p hp => absurd hp (List.not_mem_nil p))

/-! ### Claims -/

/-- C1: for every input text the classifier returns `Positive` iff the
computed polarity exceeds 0.1, `Negative` iff it is below -0.1, and
`Neutral` otherwise; the boundary polarities 0.1 and -0.1 classify as
exactly `Neutral`. -/
theorem claim_C1 (p : ℚ) :
    (analyze_sentiment p = "Positive" ↔ p > 1/10) ∧
    (analyze_sentiment p = "Negative" ↔ p < -(1/10)) ∧
    (analyze_sentiment p = "Neutral" ↔ (-(1/10) ≤ p ∧ p ≤ 1/10)) ∧
    analyze_sentiment (1/10 : ℚ) = "Neutral" ∧
    analyze_sentiment (-(1/10) : ℚ) = "Neutral" := by
  have hb1 : analyze_sentiment (1/10 : ℚ) = "Neutral" := by
    unfold analyze_sentiment
    rw [if_neg (by norm_num), if_neg (by norm_num)]
  have hb2 : analyze_sentiment (-(1/10) : ℚ) = "Neutral" := by
    unfold analyze_sentiment
    rw [if_neg (by norm_num), if_neg (by norm_num)]
  by_cases h1 : p > 1/10
  · have he : analyze_sentiment p = "Positive" := by
      unfold analyze_sentiment
      rw [if_pos h1]
    refine ⟨by rw [he]; exact ⟨fun _ => h1, fun _ => rfl⟩, ?_, ?_, hb1, hb2⟩
    · rw [he]
      constructor
      · intro hc; exact absurd hc (by decide)
      · intro hc; exfalso; linarith
    · rw [he]
      constructor
      · intro hc; exact absurd hc (by decide)
      · intro hc
        obtain ⟨-, hc2⟩ := hc
        exfalso; linarith
  · by_cases h2 : p < -(1/10)
    · have he : analyze_sentiment p = "Negative" := by
        unfold analyze_sentiment
        rw [if_neg h1, if_pos h2]
      refine ⟨?_, by rw [he]; exact ⟨fun _ => h2, fun _ => rfl⟩, ?_, hb1, hb2⟩
      · rw [he]
        constructor
        · intro hc; exact absurd hc (by decide)
        · intro hc; exfalso; linarith
      · rw [he]
        constructor
        · intro hc; exact absurd hc (by decide)
        · intro hc
          obtain ⟨hc1, -⟩ := hc
          exfalso; linarith
    · have he : analyze_sentiment p = "Neutral" := by
        unfold analyze_sentiment
        rw [if_neg h1, if_neg h2]
      rw [not_lt] at h1 h2
      refine ⟨?_, ?_, by rw [he]; exact ⟨fun _ => ⟨h2, h1⟩, fun _ => rfl⟩, hb1, hb2⟩
      · rw [he]
        constructor
        · intro hc; exact absurd hc (by decide)
        · intro hc; exfalso; linarith
      · rw [he]
        constructor
        · intro hc; exact absurd hc (by decide)
        · intro hc; exfalso; linarith

/-- C2: on an empty review sequence the composer returns exactly the fixed
"no reviews" message and nothing else — no later composition step runs. -/
theorem claim_C2 (title : String) :
    generate_summary title [] = some "No reviews found for analysis." := rfl

/-- C3: exhibits the code bug.  On a URL with no valid ASIN, `clean_url`
does raise `ValueError`, but the blanket `except` of
`fetch_reviews_selenium` (src/App.py:106-107) swallows it and returns an
empty review list, so the analysis produces the "no reviews" summary
string with no user-visible error — contradicting the spec's propagation
policy for InvalidInput. -/
theorem claim_C3 :
    clean_url "https://www.amazon.com/help" =
      Except.error "Could not find valid ASIN in URL" ∧
    ∀ (fetchPage : String → ℕ → Option (List Review)) (title : String),
      scrape_amazon_reviews fetchPage title "https://www.amazon.com/help" =
        some "No reviews found for analysis." := by
  constructor
  · rfl
  · intro fetchPage title
    rfl

/-- C9: the aggregate statistics — total count, mean rating and the two
sentiment percentages — are invariant under permutation of the review
sequence. -/
theorem claim_C9 (l1 l2 : List Review) (h : l1.Perm l2) :
    total_count l1 = total_count l2 ∧ mean_rating l1 = mean_rating l2 ∧
    positive_percent l1 = positive_percent l2 ∧
    negative_percent l1 = negative_percent l2 := by
  have hlen := h.length_eq
  refine ⟨hlen, ?_, ?_, ?_⟩
  · unfold mean_rating
    rw [(h.map fun r => r.rating).sum_eq, hlen]
  · unfold positive_percent
    rw [(h.filter fun r => r.sentiment == "Positive").length_eq, hlen]
  · unfold negative_percent
    rw [(h.filter fun r => r.sentiment == "Negative").length_eq, hlen]

/-- Witness for C9 at a concrete two-element corpus and its swap. -/
theorem claim_C9_witness :
    ([Review.mk "a" 1 "Negative", Review.mk "b" 5 "Positive"] : List Review).Perm
      [Review.mk "b" 5 "Positive", Review.mk "a" 1 "Negative"] ∧
    (total_count [Review.mk "a" 1 "Negative", Review.mk "b" 5 "Positive"] =
        total_count [Review.mk "b" 5 "Positive", Review.mk "a" 1 "Negative"] ∧
      mean_rating [Review.mk "a" 1 "Negative", Review.mk "b" 5 "Positive"] =
        mean_rating [Review.mk "b" 5 "Positive", Review.mk "a" 1 "Negative"] ∧
      positive_percent [Review.mk "a" 1 "Negative", Review.mk "b" 5 "Positive"] =
        positive_percent [Review.mk "b" 5 "Positive", Review.mk "a" 1 "Negative"] ∧
      negative_percent [Review.mk "a" 1 "Negative", Review.mk "b" 5 "Positive"] =
        negative_percent [Review.mk "b" 5 "Positive", Review.mk "a" 1 "Negative"]) :=
  ⟨by decide, claim_C9 _ _ (by decide)⟩

/-- C4: on a non-empty corpus the overall sentiment descriptor is chosen by
first match over the ordered thresholds on the positive percentage
(computed over the whole corpus), with the negative-percentage fallback,
and the chosen descriptor appears in the composed summary. -/
theorem claim_C4 (reviews : List Review) (h : reviews ≠ []) :
    (positive_percent reviews ≥ 80 →
      sentiment_desc (positive_percent reviews) (negative_percent reviews) =
        "overwhelmingly positive reviews") ∧
    (positive_percent reviews < 80 → positive_percent reviews ≥ 70 →
      sentiment_desc (positive_percent reviews) (negative_percent reviews) =
        "largely positive reviews") ∧
    (positive_percent reviews < 70 → positive_percent reviews ≥ 60 →
      sentiment_desc (positive_percent reviews) (negative_percent reviews) =
        "generally positive reviews") ∧
    (positive_percent reviews < 60 → negative_percent reviews ≥ 60 →
      sentiment_desc (positive_percent reviews) (negative_percent reviews) =
        "generally negative reviews") ∧
    (positive_percent reviews < 60 → negative_percent reviews < 60 →
      sentiment_desc (positive_percent reviews) (negative_percent reviews) =
        "mixed reviews") ∧
    (∀ title, ∃ pre post, generate_summary title reviews =
      some (pre ++
        sentiment_desc (positive_percent reviews) (negative_percent reviews) ++
        post)) := by
  refine ⟨?_, ?_, ?_, ?_, ?_, ?_⟩
  · intro h1
    unfold sentiment_desc
    rw [if_pos h1]
  · intro h1 h2
    unfold sentiment_desc
    rw [if_neg (by push_neg; linarith), if_pos h2]
  · intro h1 h2
    unfold sentiment_desc
    rw [if_neg (by push_neg; linarith), if_neg (by push_neg; linarith),
      if_pos h2]
  · intro h1 h2
    unfold sentiment_desc
    rw [if_neg (by push_neg; linarith), if_neg (by push_neg; linarith),
      if_neg (by push_neg; linarith), if_pos h2]
  · intro h1 h2
    unfold sentiment_desc
    rw [if_neg (by push_neg; linarith), if_neg (by push_neg; linarith),
      if_neg (by push_neg; linarith), if_neg (by push_neg; linarith)]
  · intro title
    obtain ⟨pc, nc, -, -, heq⟩ := generate_summary_eq_parts title reviews h
    rw [heq]
    refine ⟨"Based on a detailed analysis of " ++ toString reviews.length ++
      " customer reviews, the " ++ title ++ " has received ",
      (" with an average rating of " ++ formatRating (mean_rating reviews) ++
        " out of 5 stars. ") ++ pc ++ neutral_clause (neutral_subset reviews) ++
        nc ++ closing_recommendation (mean_rating reviews)
          (positive_percent reviews) (extract_themes (positive_subset reviews)),
      ?_⟩
    unfold opening_sentence
    simp only [str_append_assoc]

/-- Witness for C4 at a fully positive one-review corpus. -/
theorem claim_C4_witness :
    ([Review.mk "ok" 5 "Positive"] : List Review) ≠ [] ∧
    positive_percent [Review.mk "ok" 5 "Positive"] ≥ 80 ∧
    sentiment_desc (positive_percent [Review.mk "ok" 5 "Positive"])
      (negative_percent [Review.mk "ok" 5 "Positive"]) =
      "overwhelmingly positive reviews" := by
  refine ⟨by decide, by norm_num [positive_percent], ?_⟩
  exact (claim_C4 [Review.mk "ok" 5 "Positive"] (by decide)).1
    (by norm_num [positive_percent])

/-- C7: on a non-empty corpus the closing recommendation is chosen by first
match on `(mean_rating, positive_percent)`: 4.0/70 gives the strong
recommendation naming up to the first two positive-theme keys, else 3.5/60
gives the cautious sentence, else the explore-alternatives sentence; the
chosen sentence closes the composed summary. -/
theorem claim_C7 (reviews : List Review) (h : reviews ≠ []) :
    ((mean_rating reviews ≥ 4 ∧ positive_percent reviews ≥ 70) →
      closing_recommendation (mean_rating reviews) (positive_percent reviews)
        (extract_themes (positive_subset reviews)) =
        "Given the substantial positive feedback and high average rating, this product comes highly recommended by the majority of users, particularly for those valuing " ++
          String.intercalate " and "
            (((extract_themes (positive_subset reviews)).map Prod.fst).take 2) ++
          ".") ∧
    (¬(mean_rating reviews ≥ 4 ∧ positive_percent reviews ≥ 70) →
      (mean_rating reviews ≥ 7/2 ∧ positive_percent reviews ≥ 60) →
      closing_recommendation (mean_rating reviews) (positive_percent reviews)
        (extract_themes (positive_subset reviews)) =
        "While most users are satisfied with their purchase, potential buyers should weigh the praised aspects against the reported limitations to ensure it meets their specific needs.") ∧
    (¬(mean_rating reviews ≥ 4 ∧ positive_percent reviews ≥ 70) →
      ¬(mean_rating reviews ≥ 7/2 ∧ positive_percent reviews ≥ 60) →
      closing_recommendation (mean_rating reviews) (positive_percent reviews)
        (extract_themes (positive_subset reviews)) =
        "Given the mixed feedback, potential buyers may want to explore other options or consider specific use cases before deciding.") ∧
    (∀ title, ∃ pre, generate_summary title reviews =
      some (pre ++ closing_recommendation (mean_rating reviews)
        (positive_percent reviews) (extract_themes (positive_subset reviews)))) := by
  refine ⟨?_, ?_, ?_, ?_⟩
  · intro h1
    unfold closing_recommendation
    rw [if_pos h1]
  · intro h1 h2
    unfold closing_recommendation
    rw [if_neg h1, if_pos h2]
  · intro h1 h2
    unfold closing_recommendation
    rw [if_neg h1, if_neg h2]
  · intro title
    obtain ⟨pc, nc, -, -, heq⟩ := generate_summary_eq_parts title reviews h
    exact ⟨_, heq⟩

/-- Witness for C7 at a corpus hitting the strong-recommendation branch. -/
theorem claim_C7_witness :
    ([Review.mk "ok" 5 "Positive"] : List Review) ≠ [] ∧
    (mean_rating [Review.mk "ok" 5 "Positive"] ≥ 4 ∧
      positive_percent [Review.mk "ok" 5 "Positive"] ≥ 70) ∧
    closing_recommendation (mean_rating [Review.mk "ok" 5 "Positive"])
      (positive_percent [Review.mk "ok" 5 "Positive"])
      (extract_themes (positive_subset [Review.mk "ok" 5 "Positive"])) =
      "Given the substantial positive feedback and high average rating, this product comes highly recommended by the majority of users, particularly for those valuing " ++
        String.intercalate " and "
          (((extract_themes (positive_subset [Review.mk "ok" 5 "Positive"])).map
            Prod.fst).take 2) ++ "." := by
  refine ⟨by decide,
    ⟨by norm_num [mean_rating], by norm_num [positive_percent]⟩, ?_⟩
  exact (claim_C7 [Review.mk "ok" 5 "Positive"] (by decide)).1
    ⟨by norm_num [mean_rating], by norm_num [positive_percent]⟩

/-- C5: for every review and every fixed aspect, when the lower-cased text
contains one of the aspect's keywords, the text is split on the period
character and the first split segment that contains a keyword and is
non-empty after stripping is appended (stripped) to that aspect's example
list; quantifying over the aspect shows one review can feed several
aspects. -/
theorem claim_C5 (rs : List Review) (r : Review) (aspect : String)
    (keywords : List String)
    (hmem : (aspect, keywords) ∈ common_aspects)
    (hkw : containsAnyKeyword keywords (pyLower r.text) = true) :
    ∃ f rest, relevant_sentences keywords (pyLower r.text) = f :: rest ∧
      themeExamples (extract_themes (rs ++ [r])) aspect =
        themeExamples (extract_themes rs) aspect ++ [f] := by
  obtain ⟨f, rest, hrel⟩ := relevant_sentences_ne_nil
    (fun k hk => common_aspects_keywords_ok (aspect, keywords) hmem k hk) hkw
  refine ⟨f, rest, hrel, ?_⟩
  have hext : extract_themes (rs ++ [r]) =
      common_aspects.foldl (themeStep r) (extract_themes rs) := by
    unfold extract_themes
    rw [List.foldl_append]
    rfl
  rw [hext]
  obtain ⟨pre, post, hsplit⟩ := List.append_of_mem hmem
  have hnd : (common_aspects.map Prod.fst).Nodup := by decide
  rw [hsplit, List.map_append, List.map_cons] at hnd
  rw [List.nodup_append] at hnd
  obtain ⟨-, hnd2, hdisj⟩ := hnd
  have hpre : ∀ q ∈ pre, q.1 ≠ aspect := by
    intro q hq heqq
    exact hdisj (List.mem_map_of_mem Prod.fst hq)
      (by rw [heqq]; exact List.mem_cons_self _ _)
  have hpost : ∀ q ∈ post, q.1 ≠ aspect := by
    intro q hq heqq
    have hmp : aspect ∈ post.map Prod.fst := by
      rw [← heqq]
      exact List.mem_map_of_mem Prod.fst hq
    exact (List.nodup_cons.mp hnd2).1 hmp
  rw [hsplit]
  exact themeExamples_foldl_found r aspect keywords pre post _ hpre hpost hkw hrel

/-- Witness for C5: a review mentioning the quality aspect contributes its
first quality sentence to the quality example list. -/
theorem claim_C5_witness :
    ((("quality" : String),
        (["quality", "build", "material", "durability", "construction"] :
          List String)) ∈ common_aspects) ∧
    containsAnyKeyword ["quality", "build", "material", "durability", "construction"]
      (pyLower (Review.mk "Great quality. Poor support." 5 "Positive").text) = true ∧
    ∃ f rest,
      relevant_sentences ["quality", "build", "material", "durability", "construction"]
        (pyLower (Review.mk "Great quality. Poor support." 5 "Positive").text) =
        f :: rest ∧
      themeExamples
        (extract_themes ([] ++ [Review.mk "Great quality. Poor support." 5 "Positive"]))
        "quality" =
        themeExamples (extract_themes []) "quality" ++ [f] :=
  ⟨by decide, by decide,
    claim_C5 [] (Review.mk "Great quality. Poor support." 5 "Positive")
      "quality" ["quality", "build", "material", "durability", "construction"]
      (by decide) (by decide)⟩

/-- C6: when a detailed (more than 200 characters) Neutral review exists,
the composer emits one neutral-perspective clause quoting exactly the first
150 characters of the longest-text such review followed by the ellipsis
marker; with no detailed Neutral review the clause is empty, and the clause
occupies exactly one slot of the composed summary. -/
theorem claim_C6 (reviews : List Review) :
    (neutral_subset reviews = [] →
      neutral_clause (neutral_subset reviews) = "") ∧
    (neutral_subset reviews ≠ [] →
      ∃ b, b ∈ neutral_subset reviews ∧
        (∀ x ∈ neutral_subset reviews, x.text.length ≤ b.text.length) ∧
        neutral_clause (neutral_subset reviews) =
          "A balanced perspective from users notes that " ++
            pyTake 150 b.text ++ "... " ∧
        (pyTake 150 b.text).length = 150) ∧
    (∀ title, reviews ≠ [] → ∃ pre post, generate_summary title reviews =
      some (pre ++ neutral_clause (neutral_subset reviews) ++ post)) := by
  refine ⟨fun h => by rw [h]; rfl, ?_, ?_⟩
  · intro hne
    obtain ⟨r, rest, heq⟩ := List.exists_cons_of_ne_nil hne
    obtain ⟨hmem, hge⟩ := maxReviewByTextLen_spec rest r
    have hb : maxReviewByTextLen r rest ∈ neutral_subset reviews := by
      rw [heq]
      exact hmem
    refine ⟨maxReviewByTextLen r rest, hb, ?_, ?_, ?_⟩
    · intro x hx
      rw [heq] at hx
      exact hge x hx
    · rw [heq]
      rfl
    · have hdet : maxReviewByTextLen r rest ∈ detailed_reviews reviews :=
        (List.mem_filter.mp hb).1
      have hlen : 200 < (maxReviewByTextLen r rest).text.length := by
        have hp := (List.mem_filter.mp hdet).2
        simpa using hp
      show ((maxReviewByTextLen r rest).text.data.take 150).length = 150
      rw [List.length_take]
      have : (maxReviewByTextLen r rest).text.length =
          (maxReviewByTextLen r rest).text.data.length := rfl
      omega
  · intro title h
    obtain ⟨pc, nc, -, -, heq⟩ := generate_summary_eq_parts title reviews h
    rw [heq]
    refine ⟨opening_sentence title reviews.length
        (sentiment_desc (positive_percent reviews) (negative_percent reviews))
        (mean_rating reviews) ++ pc,
      nc ++ closing_recommendation (mean_rating reviews)
        (positive_percent reviews) (extract_themes (positive_subset reviews)),
      ?_⟩
    rw [str_append_assoc]

set_option maxRecDepth 8000 in
/-- Witness for C6 at a corpus with one detailed Neutral review of 210
characters. -/
theorem claim_C6_witness :
    neutral_subset [Review.mk (String.mk (List.replicate 210 'x')) 3 "Neutral"] ≠ [] ∧
    ∃ b, b ∈ neutral_subset
        [Review.mk (String.mk (List.replicate 210 'x')) 3 "Neutral"] ∧
      (∀ x ∈ neutral_subset
          [Review.mk (String.mk (List.replicate 210 'x')) 3 "Neutral"],
        x.text.length ≤ b.text.length) ∧
      neutral_clause (neutral_subset
          [Review.mk (String.mk (List.replicate 210 'x')) 3 "Neutral"]) =
        "A balanced perspective from users notes that " ++
          pyTake 150 b.text ++ "... " ∧
      (pyTake 150 b.text).length = 150 :=
  ⟨by decide,
    (claim_C6 [Review.mk (String.mk (List.replicate 210 'x')) 3 "Neutral"]).2.1
      (by decide)⟩

/-- C8: the composer is total — on any non-empty well-formed review
sequence every guarded partial operation succeeds and a summary string is
returned. -/
theorem claim_C8 (title : String) (reviews : List Review) (h : reviews ≠ []) :
    ∃ s, generate_summary title reviews = some s := by
  obtain ⟨pc, nc, -, -, heq⟩ := generate_summary_eq_parts title reviews h
  exact ⟨_, heq⟩

/-- Witness for C8 at a one-review corpus. -/
theorem claim_C8_witness :
    ([Review.mk "fine" 4 "Neutral"] : List Review) ≠ [] ∧
    ∃ s, generate_summary "Product" [Review.mk "fine" 4 "Neutral"] = some s :=
  ⟨by decide, claim_C8 "Product" [Review.mk "fine" 4 "Neutral"] (by decide)⟩

/-- C10: every aspect key of an extracted theme map holds a non-empty list
of non-empty example strings, so whenever a themes lead-in is emitted at
least one "the aspect (example)" item follows it. -/
theorem claim_C10 (rl : List Review) (lead : String) :
    (∀ p ∈ extract_themes rl, p.2 ≠ [] ∧ ∀ e ∈ p.2, e ≠ "") ∧
    (extract_themes rl ≠ [] →
      ∃ pt pts body, themePoints (extract_themes rl) = pt :: pts ∧
        themes_clause lead (extract_themes rl) = some (lead ++ body) ∧
        body ≠ "") := by
  have hinv := extract_themes_inv rl
  constructor
  · intro p hp
    refine ⟨(hinv p hp).1, ?_⟩
    intro e he heq
    exact (hinv p hp).2 e he (by rw [heq])
  · intro hne
    obtain ⟨p, prest, heq⟩ := List.exists_cons_of_ne_nil hne
    have hp2 : p.2 ≠ [] :=
      (hinv p (by rw [heq]; exact List.mem_cons_self _ _)).1
    obtain ⟨x, xs, hx⟩ := List.exists_cons_of_ne_nil hp2
    have hmax : maxByLen? p.2 =
        some (xs.foldl (fun best s => if s.length > best.length then s else best) x) := by
      rw [hx]
      rfl
    have hpoints : themePoints (extract_themes rl) ≠ [] := by
      rw [heq]
      unfold themePoints
      rw [List.filterMap_cons, hmax]
      simp
    obtain ⟨pt, pts, hpt⟩ := List.exists_cons_of_ne_nil hpoints
    obtain ⟨body, hbody, hbodyne⟩ := formatPoints_some hpoints
    refine ⟨pt, pts, body, hpt, ?_, hbodyne⟩
    unfold themes_clause
    have hni1 : ¬((extract_themes rl).isEmpty = true) := by
      simpa [List.isEmpty_iff] using hne
    have hni2 : ¬((themePoints (extract_themes rl)).isEmpty = true) := by
      simpa [List.isEmpty_iff] using hpoints
    rw [if_neg hni1, if_neg hni2, hbody]
    rfl

/-- Witness for C10 at a one-review corpus with a quality complaint. -/
theorem claim_C10_witness :
    extract_themes [Review.mk "bad quality." 1 "Negative"] ≠ [] ∧
    ∃ pt pts body,
      themePoints (extract_themes [Review.mk "bad quality." 1 "Negative"]) =
        pt :: pts ∧
      themes_clause "However, some users have expressed concerns about "
        (extract_themes [Review.mk "bad quality." 1 "Negative"]) =
        some ("However, some users have expressed concerns about " ++ body) ∧
      body ≠ "" :=
  ⟨by decide,
    (claim_C10 [Review.mk "bad quality." 1 "Negative"]
      "However, some users have expressed concerns about ").2 (by decide)⟩

end ReviewAnalyzer
